import Mathlib

set_option linter.unusedVariables false

namespace ResearchAgent

/-! Shallow embedding of the chainlit-research-agent repository:
`src/util/call_llm.py`, `src/util/search_web.py`, `src/nodes.py`,
`src/flow.py`, and the initial shared state from `src/app.py`.

JSON values are modelled by an inductive covering the fragment the
program exchanges with the model: null, booleans, integer numbers,
strings, arrays and objects (floats, exponents and `\uXXXX` escapes are
outside the fragment; none of the program's schemas use them). -/

/-- JSON value as produced by Python `json.loads`: null, bool, integer
number, string, array, or object (a key-ordered association list, the
way Python dicts preserve insertion order). -/
inductive Json where
  | null : Json
  | bool : Bool → Json
  | num : Int → Json
  | str : String → Json
  | arr : List Json → Json
  | obj : List (String × Json) → Json

/-- Lookup of a key in a JSON object, mirroring Python `dict.get`:
`jget (obj m) k` is the first binding of `k`; on a non-object it is
`none` (the program only calls `.get` on parsed dicts). -/
def jget : Json → String → Option Json
  | .obj m, k => (m.find? (fun p => p.1 = k)).map Prod.snd
  | _, _ => none

/-- Characters JSON strings may contain unescaped: visible characters,
everything except the quote, the backslash and control characters. -/
def plainChar (c : Char) : Bool :=
  32 ≤ c.toNat && c ≠ '"' && c ≠ '\\'

/-- Escape a single character for JSON output, as `json.dumps` does on
the modelled fragment: quote and backslash get a backslash prefix, the
rest pass through. -/
def escChar (c : Char) : List Char :=
  if c = '"' then ['\\', '"']
  else if c = '\\' then ['\\', '\\']
  else [c]

/-- Serialize the body of a JSON string (without the surrounding
quotes). -/
def escStr (s : List Char) : List Char :=
  s.flatMap escChar

/-- Character for a decimal digit (inputs are always < 10 where used). -/
def digitChar : Nat → Char
  | 0 => '0' | 1 => '1' | 2 => '2' | 3 => '3' | 4 => '4'
  | 5 => '5' | 6 => '6' | 7 => '7' | 8 => '8' | _ => '9'

/-- Decimal digits of a natural number, most significant first, as
`json.dumps` prints them. -/
def printNat (n : Nat) : List Char :=
  if h : n < 10 then [digitChar n]
  else printNat (n / 10) ++ [digitChar (n % 10)]
decreasing_by exact Nat.div_lt_self (by omega) (by omega)

/-- Character list of a literal keyword. -/
def kw (s : String) : List Char := s.data

/-- Decimal rendering of a JSON integer: a minus sign on negatives,
digits otherwise. -/
def printInt (n : Int) : List Char :=
  if n < 0 then '-' :: printNat n.natAbs else printNat n.toNat

mutual
/-- Serialization of a JSON value as a character list, mirroring
`json.dumps` with compact separators on the modelled fragment. -/
def printJson : Json → List Char
  | .null => kw "null"
  | .bool true => kw "true"
  | .bool false => kw "false" 
  | .num n => printInt n
  | .str s => '"' :: escStr s.toList ++ ['"']
  | .arr l => '[' :: printList l ++ [']']
  | .obj m => '\x7b' :: printMembers m ++ ['\x7d']

/-- Serialization of array elements, comma separated. -/
def printList : List Json → List Char
  | [] => []
  | [v] => printJson v
  | v :: tl => printJson v ++ ',' :: printList tl

/-- Serialization of object members, comma separated, each
`"key":value`. -/
def printMembers : List (String × Json) → List Char
  | [] => []
  | [(k, v)] => '"' :: escStr k.toList ++ '"' :: ':' :: printJson v
  | (k, v) :: tl =>
      '"' :: escStr k.toList ++ '"' :: ':' :: printJson v ++ ',' :: printMembers tl
end

mutual
/-- Well-formedness of a JSON value for the printer/parser round trip:
every string (key or value) contains only characters that are either
plain or one of the two modelled escapes (quote, backslash), i.e. no
control characters. -/
def wfJson : Json → Bool
  | .null => true
  | .bool _ => true
  | .num _ => true
  | .str s => s.toList.all (fun c => 32 ≤ c.toNat)
  | .arr l => wfList l
  | .obj m => wfMembers m

/-- Well-formedness of a list of JSON values. -/
def wfList : List Json → Bool
  | [] => true
  | v :: tl => wfJson v && wfList tl

/-- Well-formedness of object members. -/
def wfMembers : List (String × Json) → Bool
  | [] => true
  | (k, v) :: tl => (k.toList.all (fun c => 32 ≤ c.toNat)) && wfJson v && wfMembers tl
end

/-! Parser modelling Python `json.loads` on the same fragment. The
parser works on character lists with a fuel argument bounding nesting
depth; `loads` supplies ample fuel. Divergences from CPython outside
the fragment (floats, exponents, `\uXXXX`/`\n`-style escapes, the
leading-zero restriction on numbers) do not affect any input appearing
in this development. -/

/-- Whitespace characters `json.loads` skips between tokens. -/
def isJsonWs (c : Char) : Bool :=
  c = ' ' || c = '\t' || c = '\n' || c = '\r'

/-- Drop leading JSON whitespace. -/
def skipWs (cs : List Char) : List Char :=
  cs.dropWhile isJsonWs

/-- Parse the body of a JSON string after the opening quote, returning
the decoded characters and the remainder after the closing quote. -/
def parseStrBody : List Char → Option (List Char × List Char)
  | [] => none
  | c :: rest =>
    if c = '"' then some ([], rest)
    else if c = '\\' then
      match rest with
      | [] => none
      | c2 :: rest2 =>
        if c2 = '"' || c2 = '\\' then
          (parseStrBody rest2).map (fun p => (c2 :: p.1, p.2))
        else none
    else if plainChar c then
      (parseStrBody rest).map (fun p => (c :: p.1, p.2))
    else none

/-- Consume a maximal run of decimal digits, accumulating their value. -/
def parseDigitsAux : List Char → Nat → Nat × List Char
  | [], acc => (acc, [])
  | c :: rest, acc =>
      if c.isDigit then parseDigitsAux rest (acc * 10 + (c.toNat - 48))
      else (acc, c :: rest)

/-- Parse a JSON integer: an optional minus sign followed by at least
one digit. -/
def parseNum : List Char → Option (Int × List Char)
  | [] => none
  | c :: rest =>
    if c = '-' then
      match rest with
      | [] => none
      | c2 :: _ =>
        if c2.isDigit then
          let p := parseDigitsAux rest 0
          some (-(p.1 : Int), p.2)
        else none
    else if c.isDigit then
      let p := parseDigitsAux (c :: rest) 0
      some ((p.1 : Int), p.2)
    else none

mutual
/-- Parse one JSON value (after skipping leading whitespace), returning
the value and the unconsumed remainder; dispatch is on the first
character, the way CPython's scanner dispatches. -/
def parseVal : Nat → List Char → Option (Json × List Char)
  | 0, _ => none
  | fuel + 1, cs =>
    match skipWs cs with
    | [] => none
    | c :: rest =>
      if c = 'n' then
        (if rest.take 3 = kw "ull" then some (.null, rest.drop 3) else none)
      else if c = 't' then
        (if rest.take 3 = kw "rue" then some (.bool true, rest.drop 3) else none)
      else if c = 'f' then
        (if rest.take 4 = kw "alse" then some (.bool false, rest.drop 4) else none)
      else if c = '"' then
        (parseStrBody rest).map (fun p => (.str (String.mk p.1), p.2))
      else if c = '[' then
        (match skipWs rest with
         | [] => none
         | c2 :: r3 =>
           if c2 = ']' then some (.arr [], r3)
           else (parseElems fuel (c2 :: r3)).map (fun p => (.arr p.1, p.2)))
      else if c = '\x7b' then
        (match skipWs rest with
         | [] => none
         | c2 :: r3 =>
           if c2 = '\x7d' then some (.obj [], r3)
           else (parseMems fuel (c2 :: r3)).map (fun p => (.obj p.1, p.2)))
      else (parseNum (c :: rest)).map (fun p => (.num p.1, p.2))

/-- Parse the elements of a non-empty JSON array up to and including
the closing bracket. -/
def parseElems : Nat → List Char → Option (List Json × List Char)
  | 0, _ => none
  | fuel + 1, cs =>
    match parseVal fuel cs with
    | none => none
    | some (v, r) =>
      match skipWs r with
      | ',' :: r2 => (parseElems fuel r2).map (fun p => (v :: p.1, p.2))
      | ']' :: r2 => some ([v], r2)
      | _ => none

/-- Parse the members of a non-empty JSON object up to and including
the closing brace. -/
def parseMems : Nat → List Char → Option (List (String × Json) × List Char)
  | 0, _ => none
  | fuel + 1, cs =>
    match skipWs cs with
    | '"' :: rest =>
      (match parseStrBody rest with
       | none => none
       | some (k, r) =>
         match skipWs r with
         | ':' :: r2 =>
           (match parseVal fuel r2 with
            | none => none
            | some (v, r3) =>
              match skipWs r3 with
              | ',' :: r4 => (parseMems fuel r4).map (fun p => ((String.mk k, v) :: p.1, p.2))
              | '\x7d' :: r4 => some ([(String.mk k, v)], r4)
              | _ => none)
         | _ => none)
    | _ => none
end

/-- Decidable guard used in round-trip statements: the continuation
does not begin with a digit (so number parsing stops exactly at the
printed digits). -/
def headNotDigit : List Char → Bool
  | [] => true
  | c :: _ => !c.isDigit

mutual
/-- Fuel measure of a JSON value: enough parser fuel to reparse its
serialization. -/
def jsize : Json → Nat
  | .arr l => 1 + lsize l
  | .obj m => 1 + msize m
  | _ => 1

/-- Fuel measure of array elements. -/
def lsize : List Json → Nat
  | [] => 0
  | v :: tl => 1 + jsize v + lsize tl

/-- Fuel measure of object members. -/
def msize : List (String × Json) → Nat
  | (_, v) :: tl => 1 + jsize v + msize tl
  | _ => 0
end

/-- Model of Python `json.loads`: parse one value and require that only
whitespace remains (otherwise CPython raises `Extra data`); `none`
models a raised `json.JSONDecodeError`. -/
def loads (cs : List Char) : Option Json :=
  match parseVal (cs.length + 1) cs with
  | some (v, r) => if skipWs r = [] then some v else none
  | none => none

/-- Index of the first occurrence of a character, mirroring Python
`str.index` (`none` models the raised `ValueError`). -/
def firstIdx (c : Char) : List Char → Option Nat
  | [] => none
  | x :: t => if x = c then some 0 else (firstIdx c t).map (· + 1)

/-- Index of the last occurrence of a character, mirroring Python
`str.rindex`. -/
def lastIdx (c : Char) (l : List Char) : Option Nat :=
  (firstIdx c l.reverse).map (fun i => l.length - 1 - i)

/-- Model of `call_llm_json_async` (src/util/call_llm.py lines 56-67)
after the provider returned `content`: try `json.loads`; on failure
take the substring from the first `\x7b` to the last `\x7d` inclusive
(`content[first : last + 1]`) and parse that; if that also fails (or a
brace is missing, making `index`/`rindex` raise), raise
`ValueError("LLM did not return valid JSON: " + content)` — modelled as
`Except.error` carrying the raw text. The provider's own
schema-constrained decoding happens upstream; this function performs no
local schema validation on the parsed value. -/
def call_llm_json (content : List Char) : Except (List Char) Json :=
  match loads content with
  | some v => .ok v
  | none =>
    match firstIdx '\x7b' content, lastIdx '\x7d' content with
    | some first, some last =>
      (match loads ((content.drop first).take (last + 1 - first)) with
       | some v => .ok v
       | none => .error content)
    | _, _ => .error content

/-- Structural validity of a parsed value against the `AgentAction`
pydantic schema (src/nodes.py lines 146-158): an object whose keys are
exactly `action` (one of the four literals) and `reason` (a string),
with unknown fields forbidden (`extra="forbid"`). -/
def validAgentAction (j : Json) : Bool :=
  match j with
  | .obj m =>
    (match jget (.obj m) "action", jget (.obj m) "reason" with
     | some (.str a), some (.str _) =>
       (a = "plan" || a = "execute" || a = "reflect" || a = "synthesize") &&
         m.all (fun p => p.1 == "action" || p.1 == "reason")
     | _, _ => false)
  | _ => false

/-! Model of `src/util/search_web.py` and of the five stage nodes in
`src/nodes.py`. External collaborators (the completion client after
JSON decoding, and the DuckDuckGo provider `DDGS().text`) are supplied
as an `Oracle` of functions; the node bodies below are translated from
the source. Python's untyped dicts flowing between stages are modelled
as `Json` values; the shared store is the record built in
`src/app.py` lines 34-43. -/

/-- Coerce a JSON value to a list of elements the way the program's
`for`-loops use values it read from parsed dicts (only ever applied to
arrays in the claims below). -/
def asArr : Json → List Json
  | .arr l => l
  | _ => []

/-- Python truthiness of a parsed JSON value, used by the `or \x7b\x7d`
on src/nodes.py line 65. -/
def jsonFalsy : Json → Bool
  | .null => true
  | .bool b => !b
  | .num n => n == 0
  | .str s => s == ""
  | .arr l => l.isEmpty
  | .obj m => m.isEmpty

/-- Synthetic entry appended in place of a failed search query
(src/nodes.py lines 365-368). -/
def searchErrorEntry (e : String) : Json :=
  .obj [("title", .str "SEARCH_ERROR"), ("url", .str ""), ("snippet", .str e)]

/-- Conversion of one provider item into a result dict — the dead loop
body of src/util/search_web.py lines 8-15. -/
def convertItem (item : Json) : Json :=
  .obj [("title", (jget item "title").getD .null),
        ("url", (jget item "href").getD .null),
        ("snippet", (jget item "body").getD .null)]

/-- Model of `search_web` (src/util/search_web.py lines 4-16): fetch
provider results, then rebind `results` to the empty list (line 7
shadows the fetched value), then run `for item in results:
results.append(\x7b...\x7d)` — a loop over the just-emptied list, so it
performs zero iterations and the fetched results are discarded. A
provider exception propagates as `Except.error`. The source's default
`num_results=5` is passed explicitly by callers here. -/
def search_web (provider : Json → Nat → Except String Json)
    (query : Json) (num_results : Nat) : Except String (List Json) :=
  match provider query num_results with
  | .error e => .error e
  | .ok _fetched =>
    let results : List Json := []
    .ok (results ++ results.map convertItem)

/-- Per-query aggregation loop of `ExecutePlanNode.exec_async`
(src/nodes.py lines 361-368): successful results are extended onto the
accumulator, a failing query contributes one `SEARCH_ERROR` entry. -/
def aggregateResults (sf : Json → Except String (List Json))
    (queries : List Json) : List Json :=
  queries.foldl
    (fun acc q =>
      match sf q with
      | .ok rs => acc ++ rs
      | .error e => acc ++ [searchErrorEntry e])
    []

/-- Shared research state, as initialised in src/app.py lines 34-43.
`steps` is optional because `DecideNode.prep_async` guards its absence
with `setdefault` (src/nodes.py line 170). -/
structure Shared where
  user_query : String
  goal : Option Json
  constraints : Json
  plan : Json
  notes : Json
  reflection : Json
  report : String
  steps : Option Nat
  last_action : Option String
  last_observation : Option String

/-- Initial shared store for a run on a user query (src/app.py lines
34-43). -/
def initShared (uq : String) : Shared :=
  { user_query := uq, goal := none, constraints := .obj [], plan := .obj [],
    notes := .obj [], reflection := .obj [], report := "", steps := some 0,
    last_action := none, last_observation := none }

/-- Value of the steps counter as the program reads it (absent counts
as zero via `setdefault`). -/
def stepsOf (s : Shared) : Nat := s.steps.getD 0

/-- Input record built by `PlanResearchNode.prep_async`. -/
structure PlanPrep where
  goal : Option Json
  constraints : Json

/-- Input record built by `DecideNode.prep_async` (src/nodes.py lines
173-182). -/
structure DecidePrep where
  goal : Option Json
  constraints : Json
  plan : Json
  notes : Json
  reflection : Json
  steps : Nat
  last_action : Option String
  last_observation : Option String

/-- Input record built by `ExecutePlanNode.prep_async`. -/
structure ExecPrep where
  plan : Json
  goal : Option Json
  constraints : Json

/-- Input record built by `SynthesizeNode.prep_async`. -/
structure SynthPrep where
  goal : Option Json
  constraints : Json
  notes : Json
  reflection : Json

/-- External collaborators: each field models one completion or search
call made by a node's compute phase, as a function of exactly the data
the source passes into the call. -/
structure Oracle where
  clarifyLlm : String → Json
  planLlm : PlanPrep → Json
  decideLlm : DecidePrep → Json
  genQueries : Json → Option Json → Json → Json
  provider : Json → Nat → Except String Json
  summarize : Json → Option Json → Json → List Json → String
  synthLlm : SynthPrep → String

/-- Prepare phase of Clarify (src/nodes.py lines 48-49): read
`user_query`. -/
def clarifyPrep (s : Shared) : Shared × String := (s, s.user_query)

/-- Compute phase of Clarify: one structured completion. -/
def clarifyExec (o : Oracle) (uq : String) : Json := o.clarifyLlm uq

/-- Commit phase of Clarify (src/nodes.py lines 62-69): store `goal`
and `constraints` (defaulting a missing or falsy value to an empty
dict) and return "default". -/
def clarifyPost (s : Shared) (pr : String) (er : Json) : Shared × Json :=
  let c := (jget er "constraints").getD (.obj [])
  ({ s with goal := jget er "goal",
            constraints := if jsonFalsy c then .obj [] else c },
   .str "default")

/-- Prepare phase of Plan (src/nodes.py lines 116-120). -/
def planPrep (s : Shared) : Shared × PlanPrep :=
  (s, { goal := s.goal, constraints := s.constraints })

/-- Compute phase of Plan: one structured completion. -/
def planExec (o : Oracle) (pr : PlanPrep) : Json := o.planLlm pr

/-- Commit phase of Plan (src/nodes.py lines 137-144). -/
def planPost (s : Shared) (pr : PlanPrep) (er : Json) : Shared × Json :=
  let n := (asArr ((jget er "subquestions").getD (.arr []))).length
  ({ s with plan := er, last_action := some "plan",
            last_observation := some ("Planned " ++ toString n ++ " subquestions.") },
   .str "decide")

/-- Step budget of the Decide node (src/nodes.py line 167). -/
def MAX_STEPS : Nat := 8

/-- Prepare phase of Decide (src/nodes.py lines 169-182):
`setdefault("steps", 0)` then `steps += 1` — this phase writes the
shared store — and read the eight listed fields. -/
def decidePrep (s : Shared) : Shared × DecidePrep :=
  let s2 := { s with steps := some (stepsOf s + 1) }
  (s2, { goal := s2.goal, constraints := s2.constraints, plan := s2.plan,
         notes := s2.notes, reflection := s2.reflection, steps := stepsOf s + 1,
         last_action := s2.last_action, last_observation := s2.last_observation })

/-- Forced decision returned once the step budget is reached
(src/nodes.py lines 185-189). -/
def forcedSynthesize : Json :=
  .obj [("action", .str "synthesize"),
        ("reason", .str "Reached max_steps=8, forcing synthesis.")]

/-- Compute phase of Decide (src/nodes.py lines 184-223): short-circuit
to the forced decision when `steps >= MAX_STEPS`, otherwise one
structured completion. -/
def decideExec (o : Oracle) (pr : DecidePrep) : Json :=
  if MAX_STEPS ≤ pr.steps then forcedSynthesize else o.decideLlm pr

/-- Commit phase of Decide (src/nodes.py lines 225-267): writes nothing
to the shared store (the trace goes to the UI side channel) and returns
`exec_res.get("action", "synthesize")`. -/
def decidePost (s : Shared) (pr : DecidePrep) (er : Json) : Shared × Json :=
  (s, (jget er "action").getD (.str "synthesize"))

/-- Reason string Decide displays in its trace step, with its silent
default (src/nodes.py line 234). -/
def decideReason (er : Json) : Json :=
  (jget er "reason").getD (.str "(no reason)")

/-- Prepare phase of Execute (src/nodes.py lines 283-288). -/
def executePrep (s : Shared) : Shared × ExecPrep :=
  (s, { plan := s.plan, goal := s.goal, constraints := s.constraints })

/-- Queries generated for one subquestion
(`_generate_search_queries_async`, src/nodes.py lines 290-311):
`res.get("queries", [])[:5]`. -/
def subqQueries (o : Oracle) (goal : Option Json) (constraints : Json)
    (subq : Json) : List Json :=
  (asArr ((jget (o.genQueries subq goal constraints) "queries").getD (.arr []))).take 5

/-- Markdown summary produced for one subquestion: generate queries,
aggregate searches with per-query error recovery, then one free-text
completion (`_summarize_subquestion_async`, src/nodes.py lines
313-343; only the `summary` field of its result dict reaches the
shared notes). -/
def subqSummary (o : Oracle) (goal : Option Json) (constraints : Json)
    (subq : Json) : String :=
  o.summarize subq goal constraints
    (aggregateResults (fun q => search_web o.provider q 5)
      (subqQueries o goal constraints subq))

/-- Compute phase of Execute (src/nodes.py lines 345-374): one summary
string appended per subquestion, in plan order. -/
def executeExec (o : Oracle) (pr : ExecPrep) : Json :=
  let subqs := asArr ((jget pr.plan "subquestions").getD (.arr []))
  .obj [("subquestions",
          .arr (subqs.map (fun subq => .str (subqSummary o pr.goal pr.constraints subq)))),
        ("overall_objective", (jget pr.plan "overall_objective").getD .null)]

/-- Commit phase of Execute (src/nodes.py lines 376-382). -/
def executePost (s : Shared) (pr : ExecPrep) (er : Json) : Shared × Json :=
  let n := (asArr ((jget er "subquestions").getD (.arr []))).length
  ({ s with notes := er, last_action := some "execute",
            last_observation := some ("Executed research for " ++ toString n ++ " subquestions.") },
   .str "decide")

/-- Prepare phase of Synthesize (src/nodes.py lines 386-393). -/
def synthPrep (s : Shared) : Shared × SynthPrep :=
  (s, { goal := s.goal, constraints := s.constraints, notes := s.notes,
        reflection := s.reflection })

/-- Compute phase of Synthesize: one free-text completion. -/
def synthExec (o : Oracle) (pr : SynthPrep) : String := o.synthLlm pr

/-- Commit phase of Synthesize (src/nodes.py lines 421-425). -/
def synthPost (s : Shared) (pr : SynthPrep) (er : String) : Shared × Json :=
  ({ s with report := er, last_action := some "synthesize",
            last_observation := some "Final report generated." },
   .str "default")

/-! Flow controller. The edge table is `create_agent_flow`
(src/flow.py lines 28-40); `src/flow.py` also instantiates `SearchWeb`
and `AnswerQuestion` nodes but wires no edges to or from them, so they
are unreachable and omitted from the stage type. -/

/-- Connected stages of the agent flow. -/
inductive Stage where
  | Clarify | Plan | Decide | Execute | Synthesize
deriving DecidableEq

/-- Whether a returned action value equals a given string edge label
(edge dictionaries are keyed by strings; a non-string action matches no
edge). -/
def isLabel (l : Json) (s : String) : Bool :=
  match l with
  | .str t => t = s
  | _ => false

/-- Edge table built by `create_agent_flow` (src/flow.py lines 28-40):
the successor of a stage under a returned action label, `none` when no
edge matches. -/
def succ (st : Stage) (l : Json) : Option Stage :=
  match st with
  | .Clarify => if isLabel l "default" then some .Plan else none
  | .Plan => if isLabel l "decide" then some .Decide else none
  | .Execute => if isLabel l "decide" then some .Decide else none
  | .Decide =>
      if isLabel l "execute" then some .Execute
      else if isLabel l "synthesize" then some .Synthesize
      else if isLabel l "plan" then some .Plan
      else if isLabel l "reflect" then some .Synthesize
      else none
  | .Synthesize => none

/-- Start stage of the flow: `AsyncFlow(start=clarify)` (src/flow.py
line 40). -/
def flowStart : Stage := .Clarify

/-- Edge list the specification asserts the graph to contain. -/
def agentFlowEdges : List (Stage × Json × Stage) :=
  [(.Clarify, .str "default", .Plan),
   (.Plan, .str "decide", .Decide),
   (.Execute, .str "decide", .Decide),
   (.Decide, .str "execute", .Execute),
   (.Decide, .str "plan", .Plan),
   (.Decide, .str "synthesize", .Synthesize),
   (.Decide, .str "reflect", .Synthesize)]

/-- Run one stage's three phases on the shared store, returning the
updated store and the returned action label. -/
def runNode (o : Oracle) : Stage → Shared → Shared × Json
  | .Clarify, s => let p := clarifyPrep s; clarifyPost p.1 p.2 (clarifyExec o p.2)
  | .Plan, s => let p := planPrep s; planPost p.1 p.2 (planExec o p.2)
  | .Decide, s => let p := decidePrep s; decidePost p.1 p.2 (decideExec o p.2)
  | .Execute, s => let p := executePrep s; executePost p.1 p.2 (executeExec o p.2)
  | .Synthesize, s => let p := synthPrep s; synthPost p.1 p.2 (synthExec o p.2)

/-- Modelled from the spec: the flow driver loop lives in the external
`pocketflow` library, not in this repository's sources; per the spec's
execution semantics it runs the current stage's three phases, follows
the edge matching the returned action label, and stops when no edge
matches. The fuel argument makes the interpreter total; theorems below
quantify over all fuels. Returns the list of stages run, in order. -/
def traceFrom (o : Oracle) : Nat → Stage → Shared → List Stage
  | 0, _, _ => []
  | fuel + 1, st, s =>
    let p := runNode o st s
    match succ st p.2 with
    | some st2 => st :: traceFrom o fuel st2 p.1
    | none => [st]

/-- Number of Decide invocations in a run of the flow from its start
stage. -/
def decideCount (o : Oracle) (fuel : Nat) (s : Shared) : Nat :=
  (traceFrom o fuel flowStart s).count .Decide

/-! Concrete fixtures used by witness theorems. `constOracle` realises
the spec's degenerate-model scenario: the decision model always answers
"plan". -/

/-- Oracle whose decision model always chooses "plan" and whose search
provider always succeeds. -/
def constOracle : Oracle where
  clarifyLlm := fun _ => .obj []
  planLlm := fun _ => .obj []
  decideLlm := fun _ => .obj [("action", .str "plan"), ("reason", .str "loop")]
  genQueries := fun _ _ _ => .obj [("queries", .arr [.str "q1", .str "q2", .str "q3"])]
  provider := fun _ _ => .ok (.arr [])
  summarize := fun _ _ _ _ => "summary"
  synthLlm := fun _ => "report"

/-- Decide input with the step budget already exceeded. -/
def demoPrep : DecidePrep :=
  { goal := none, constraints := .obj [], plan := .obj [], notes := .obj [],
    reflection := .obj [], steps := 9, last_action := none, last_observation := none }

/-- Search function that always fails. -/
def errSearch : Json → Except String (List Json) := fun _ => .error "down"

/-- Provider that always succeeds with an empty result page. -/
def okProvider : Json → Nat → Except String Json := fun _ _ => .ok (.arr [])

/-- Provider that always raises. -/
def errProvider : Json → Nat → Except String Json := fun _ _ => .error "boom"

/-- Concrete research plan with two subquestions. -/
def demoPlan : Json :=
  .obj [("overall_objective", .str "obj"),
        ("subquestions",
          .arr [.obj [("id", .str "Q1"), ("description", .str "d1")],
                .obj [("id", .str "Q2"), ("description", .str "d2")]]),
        ("global_strategy", .str "g")]

/-- Execute input holding `demoPlan`. -/
def demoExecPrep : ExecPrep :=
  { plan := demoPlan, goal := some (.str "g"), constraints := .obj [] }

/-- Schema-conforming `AgentAction` object used in the round-trip
counterexample. -/
def actionObj : Json := .obj [("action", .str "synthesize"), ("reason", .str "r")]

/-- Response that parses as JSON but misses the required `action`
field of the `AgentAction` schema. -/
def missingFieldContent : List Char := "\x7b\"reason\":\"x\"\x7d".toList

/-- Response containing no brace pair and not parseable as JSON. -/
def noJsonContent : List Char := "oops".toList

/-- Truncated model output: it opens a brace but never closes it, so
brace-recovery cannot even be attempted (`rindex` raises). -/
def truncatedContent : List Char := "\x7b\"action\": \"pla".toList

/-! Helper lemmas about the aggregation loop. -/

/-- Folding the per-query loop from any accumulator prepends the
accumulator to the aggregation from scratch. -/
theorem aggregateResults_go (sf : Json → Except String (List Json)) :
    ∀ (queries acc : List Json),
      queries.foldl
        (fun acc q =>
          match sf q with
          | .ok rs => acc ++ rs
          | .error e => acc ++ [searchErrorEntry e])
        acc = acc ++ aggregateResults sf queries := by
  intro queries
  induction queries with
  | nil => intro acc; simp [aggregateResults]
  | cons q qs ih =>
    intro acc
    simp only [aggregateResults, List.foldl_cons]
    cases h : sf q with
    | ok rs => rw [ih, ih]; simp
    | error e => rw [ih, ih]; simp

/-- One step of the aggregation loop. -/
theorem aggregateResults_cons (sf : Json → Except String (List Json)) (q : Json)
    (qs : List Json) :
    aggregateResults sf (q :: qs) =
      (match sf q with
       | .ok rs => rs
       | .error e => [searchErrorEntry e]) ++ aggregateResults sf qs := by
  simp only [aggregateResults, List.foldl_cons]
  rw [aggregateResults_go]
  cases h : sf q <;> simp [aggregateResults]

/-- The aggregation loop distributes over query-list concatenation. -/
theorem aggregateResults_append (sf : Json → Except String (List Json))
    (l1 l2 : List Json) :
    aggregateResults sf (l1 ++ l2) = aggregateResults sf l1 ++ aggregateResults sf l2 := by
  simp only [aggregateResults, List.foldl_append]
  rw [aggregateResults_go]
  simp [aggregateResults]

/-- C2: on every Decide invocation the shared `steps` counter rises by
exactly one, an absent counter counting as zero; no prepare or commit
phase of any stage decreases it (the other four prepare phases do not
touch the store at all, and every commit phase leaves `steps`
untouched). -/
theorem steps_counter_monotone :
    (∀ s : Shared, ((decidePrep s).1).steps = some (stepsOf s + 1)) ∧
    (∀ s : Shared, stepsOf ((decidePrep s).1) = stepsOf s + 1) ∧
    (∀ s : Shared, (clarifyPrep s).1 = s ∧ (planPrep s).1 = s ∧
      (executePrep s).1 = s ∧ (synthPrep s).1 = s) ∧
    (∀ (s : Shared) (pr : String) (er : Json), ((clarifyPost s pr er).1).steps = s.steps) ∧
    (∀ (s : Shared) (pr : PlanPrep) (er : Json), ((planPost s pr er).1).steps = s.steps) ∧
    (∀ (s : Shared) (pr : DecidePrep) (er : Json), ((decidePost s pr er).1).steps = s.steps) ∧
    (∀ (s : Shared) (pr : ExecPrep) (er : Json), ((executePost s pr er).1).steps = s.steps) ∧
    (∀ (s : Shared) (pr : SynthPrep) (er : String), ((synthPost s pr er).1).steps = s.steps) ∧
    (∀ (o : Oracle) (st : Stage) (s : Shared), stepsOf s ≤ stepsOf ((runNode o st s).1)) := by
  refine ⟨fun s => rfl, fun s => rfl, fun s => ⟨rfl, rfl, rfl, rfl⟩,
    fun s pr er => rfl, fun s pr er => rfl, fun s pr er => rfl,
    fun s pr er => rfl, fun s pr er => rfl, ?_⟩
  intro o st s
  cases st
  case Clarify => exact Nat.le_refl _
  case Plan => exact Nat.le_refl _
  case Decide => exact Nat.le_succ _
  case Execute => exact Nat.le_refl _
  case Synthesize => exact Nat.le_refl _

/-- C8 counterexample: Decide's prepare phase is not a pure read — it
mutates the shared store (increments `steps`) already on the initial
state. -/
theorem stage_prepare_purity_cex :
    (decidePrep (initShared "q")).1 ≠ initShared "q" := by
  intro h
  have h2 := congrArg Shared.steps h
  simp [decidePrep, initShared, stepsOf] at h2

/-- C8 amended: the prepare phases of Clarify, Plan, Execute and
Synthesize are pure reads of the shared store; Decide's prepare phase
writes exactly the incremented `steps` counter; Decide's commit phase
writes nothing. Compute phases receive only the prepared value and
cannot touch the store (they have no access to it in the model, as in
the source). -/
theorem stage_prepare_purity_amended :
    (∀ s : Shared, (clarifyPrep s).1 = s) ∧
    (∀ s : Shared, (planPrep s).1 = s) ∧
    (∀ s : Shared, (executePrep s).1 = s) ∧
    (∀ s : Shared, (synthPrep s).1 = s) ∧
    (∀ s : Shared, (decidePrep s).1 = { s with steps := some (stepsOf s + 1) }) ∧
    (∀ (s : Shared) (pr : DecidePrep) (er : Json), (decidePost s pr er).1 = s) :=
  ⟨fun s => rfl, fun s => rfl, fun s => rfl, fun s => rfl, fun s => rfl,
   fun s pr er => rfl⟩

/-- C10: when the decision dict lacks an `action` key, Decide's commit
phase returns the label "synthesize" as a silent default, and a missing
`reason` key defaults to "(no reason)"; no error is raised (the commit
phase is total and leaves the store unchanged). -/
theorem decide_action_silent_default :
    (∀ (s : Shared) (pr : DecidePrep) (er : Json),
        jget er "action" = none → (decidePost s pr er).2 = .str "synthesize") ∧
    (∀ er : Json, jget er "reason" = none → decideReason er = .str "(no reason)") ∧
    (∀ (s : Shared) (pr : DecidePrep) (er : Json), (decidePost s pr er).1 = s) := by
  refine ⟨?_, ?_, fun _ _ _ => rfl⟩
  · intro s pr er h
    simp [decidePost, h]
  · intro er h
    simp [decideReason, h]

/-- Witness for C10 at a decision dict with a `reason` but no `action`,
and at the empty dict. -/
theorem decide_action_silent_default_witness :
    jget (Json.obj [("reason", Json.str "because")]) "action" = none ∧
    (decidePost (initShared "q") demoPrep (Json.obj [("reason", Json.str "because")])).2
      = .str "synthesize" ∧
    jget (Json.obj []) "reason" = none ∧
    decideReason (Json.obj []) = .str "(no reason)" :=
  ⟨rfl, decide_action_silent_default.1 _ _ _ rfl, rfl,
   decide_action_silent_default.2.1 _ rfl⟩

/-- C6: a failing search query is recovered locally — it contributes
exactly one synthetic `SEARCH_ERROR` entry in place of its results,
and the queries before and after it are processed exactly as they
would have been. -/
theorem search_error_localized :
    ∀ (sf : Json → Except String (List Json)) (pre post : List Json) (q : Json) (e : String),
      sf q = .error e →
      aggregateResults sf (pre ++ q :: post) =
        aggregateResults sf pre ++ searchErrorEntry e :: aggregateResults sf post := by
  intro sf pre post q e h
  rw [aggregateResults_append, aggregateResults_cons, h]
  simp

/-- Witness for C6 at an always-failing search function. -/
theorem search_error_localized_witness :
    errSearch (Json.str "w") = .error "down" ∧
    aggregateResults errSearch ([Json.str "a"] ++ Json.str "w" :: [Json.str "b"]) =
      aggregateResults errSearch [Json.str "a"] ++
        searchErrorEntry "down" :: aggregateResults errSearch [Json.str "b"] :=
  ⟨rfl, search_error_localized errSearch [Json.str "a"] [Json.str "b"] (Json.str "w") "down" rfl⟩

/-- C9: whenever the provider call succeeds, `search_web` returns the
empty list (the fetched results are discarded by the rebinding on
src/util/search_web.py line 7), so Execute's aggregated result lists
consist exclusively of `SEARCH_ERROR` placeholder entries. -/
theorem search_web_returns_empty :
    (∀ (provider : Json → Nat → Except String Json) (q : Json) (n : Nat) (res : Json),
        provider q n = .ok res → search_web provider q n = .ok []) ∧
    (∀ (provider : Json → Nat → Except String Json) (queries : List Json) (entry : Json),
        entry ∈ aggregateResults (fun q => search_web provider q 5) queries →
        ∃ e : String, entry = searchErrorEntry e) := by
  constructor
  · intro provider q n res h
    simp [search_web, h]
  · intro provider queries
    induction queries with
    | nil => intro entry h; simp [aggregateResults] at h
    | cons q qs ih =>
      intro entry h
      rw [aggregateResults_cons] at h
      rcases List.mem_append.1 h with h1 | h2
      · cases hp : provider q 5 with
        | ok res => simp [search_web, hp] at h1
        | error e =>
          simp [search_web, hp] at h1
          exact ⟨e, h1⟩
      · exact ih entry h2

/-- Witness for C9: a successful provider yields `ok []`, and with a
failing provider the aggregation holds exactly the placeholder. -/
theorem search_web_returns_empty_witness :
    okProvider (Json.str "q") 5 = .ok (.arr []) ∧
    search_web okProvider (Json.str "q") 5 = .ok [] ∧
    searchErrorEntry "boom" ∈
      aggregateResults (fun q => search_web errProvider q 5) [Json.str "q"] ∧
    ∃ e : String, searchErrorEntry "boom" = searchErrorEntry e := by
  have hmem : searchErrorEntry "boom" ∈
      aggregateResults (fun q => search_web errProvider q 5) [Json.str "q"] := by
    have h : aggregateResults (fun q => search_web errProvider q 5) [Json.str "q"]
        = [searchErrorEntry "boom"] := rfl
    rw [h]
    exact List.mem_singleton.mpr rfl
  exact ⟨rfl, search_web_returns_empty.1 okProvider (Json.str "q") 5 (.arr []) rfl,
    hmem, search_web_returns_empty.2 errProvider [Json.str "q"] _ hmem⟩

/-- C5: for a plan whose `subquestions` field is a list of N
subquestions, Execute's compute phase produces a notes dict whose
`subquestions` entry is the list of exactly the N per-subquestion
summary strings in plan order — whatever the provider does — and the
commit phase stores that dict unchanged in `notes`. -/
theorem execute_notes_per_subquestion :
    ∀ (o : Oracle) (pr : ExecPrep) (l : List Json),
      jget pr.plan "subquestions" = some (.arr l) →
      jget (executeExec o pr) "subquestions" =
        some (.arr (l.map (fun subq => .str (subqSummary o pr.goal pr.constraints subq)))) ∧
      (asArr ((jget (executeExec o pr) "subquestions").getD (.arr []))).length = l.length ∧
      (∀ s : Shared, ((executePost s pr (executeExec o pr)).1).notes = executeExec o pr) := by
  intro o pr l h
  have hobj : executeExec o pr =
      Json.obj [("subquestions",
                  .arr (l.map (fun subq => .str (subqSummary o pr.goal pr.constraints subq)))),
                ("overall_objective", (jget pr.plan "overall_objective").getD .null)] := by
    unfold executeExec
    rw [h]
    rfl
  have hx : jget (executeExec o pr) "subquestions" =
      some (.arr (l.map (fun subq => .str (subqSummary o pr.goal pr.constraints subq)))) := by
    rw [hobj]
    rfl
  refine ⟨hx, ?_, fun s => rfl⟩
  rw [hx]
  simp [asArr]

/-- Witness for C5 at the two-subquestion demo plan. -/
theorem execute_notes_per_subquestion_witness :
    jget demoExecPrep.plan "subquestions" =
      some (.arr [.obj [("id", .str "Q1"), ("description", .str "d1")],
                  .obj [("id", .str "Q2"), ("description", .str "d2")]]) ∧
    (asArr ((jget (executeExec constOracle demoExecPrep) "subquestions").getD (.arr []))).length
      = 2 :=
  ⟨rfl,
   (execute_notes_per_subquestion constOracle demoExecPrep
      [.obj [("id", .str "Q1"), ("description", .str "d1")],
       .obj [("id", .str "Q2"), ("description", .str "d2")]] rfl).2.1⟩

/-- Label matching holds exactly on the equal string label. -/
theorem isLabel_eq (l : Json) (s : String) : isLabel l s = true ↔ l = .str s := by
  cases l <;> simp [isLabel]

/-- C7: the stage graph has exactly the seven listed edges, execution
starts at Clarify, and a label with no matching edge (in particular
Synthesize returning "default") is terminal. -/
theorem flow_edges_exact :
    (∀ (st : Stage) (l : Json) (d : Stage),
        succ st l = some d ↔ (st, l, d) ∈ agentFlowEdges) ∧
    flowStart = Stage.Clarify ∧
    succ .Synthesize (.str "default") = none := by
  refine ⟨?_, rfl, rfl⟩
  intro st l d
  cases st with
  | Synthesize => simp [succ, agentFlowEdges]
  | Clarify =>
    simp only [succ]
    split_ifs with h1
    · rw [isLabel_eq] at h1
      subst h1
      simp only [agentFlowEdges]
      simp [eq_comm]
    · rw [isLabel_eq] at h1
      simp [agentFlowEdges, h1]
  | Plan =>
    simp only [succ]
    split_ifs with h1
    · rw [isLabel_eq] at h1
      subst h1
      simp only [agentFlowEdges]
      simp [eq_comm]
    · rw [isLabel_eq] at h1
      simp [agentFlowEdges, h1]
  | Execute =>
    simp only [succ]
    split_ifs with h1
    · rw [isLabel_eq] at h1
      subst h1
      simp only [agentFlowEdges]
      simp [eq_comm]
    · rw [isLabel_eq] at h1
      simp [agentFlowEdges, h1]
  | Decide =>
    simp only [succ]
    split_ifs with h1 h2 h3 h4
    · rw [isLabel_eq] at h1
      subst h1
      simp only [agentFlowEdges]
      simp [eq_comm]
    · rw [isLabel_eq] at h2
      subst h2
      simp only [agentFlowEdges]
      simp [eq_comm]
    · rw [isLabel_eq] at h3
      subst h3
      simp only [agentFlowEdges]
      simp [eq_comm]
    · rw [isLabel_eq] at h4
      subst h4
      simp only [agentFlowEdges]
      simp [eq_comm]
    · rw [isLabel_eq] at h1 h2 h3 h4
      simp [agentFlowEdges, h1, h2, h3, h4]

/-- Runs entering Synthesize never run Decide again: Synthesize
returns "default", which matches no outgoing edge. -/
theorem traceFrom_synthesize (o : Oracle) (fuel : Nat) (s : Shared) :
    (traceFrom o fuel .Synthesize s).count Stage.Decide = 0 := by
  cases fuel with
  | zero => rfl
  | succ f => rfl

/-- Bound on Decide invocations from any stage: each Decide invocation
raises `steps` by one and an invocation at `steps ≥ MAX_STEPS` is
forced to Synthesize, so at most `MAX_STEPS - min steps (MAX_STEPS-1)`
invocations remain. -/
theorem traceFrom_decide_le (o : Oracle) :
    ∀ (fuel : Nat) (st : Stage) (s : Shared),
      (traceFrom o fuel st s).count Stage.Decide
        ≤ MAX_STEPS - min (stepsOf s) (MAX_STEPS - 1) := by
  intro fuel
  induction fuel with
  | zero => intro st s; simp [traceFrom]
  | succ f ih =>
    intro st s
    have hb : 1 ≤ MAX_STEPS - min (stepsOf s) (MAX_STEPS - 1) := by
      simp only [MAX_STEPS]
      omega
    cases st with
    | Clarify =>
      have hstep : traceFrom o (f + 1) .Clarify s =
          .Clarify :: traceFrom o f .Plan ((runNode o .Clarify s).1) := rfl
      rw [hstep, List.count_cons]
      simpa using ih .Plan ((runNode o .Clarify s).1)
    | Plan =>
      have hstep : traceFrom o (f + 1) .Plan s =
          .Plan :: traceFrom o f .Decide ((runNode o .Plan s).1) := rfl
      rw [hstep, List.count_cons]
      simpa using ih .Decide ((runNode o .Plan s).1)
    | Execute =>
      have hstep : traceFrom o (f + 1) .Execute s =
          .Execute :: traceFrom o f .Decide ((runNode o .Execute s).1) := rfl
      rw [hstep, List.count_cons]
      simpa using ih .Decide ((runNode o .Execute s).1)
    | Synthesize =>
      have hstep : traceFrom o (f + 1) .Synthesize s = [.Synthesize] := rfl
      rw [hstep]
      simp
    | Decide =>
      by_cases hk : MAX_STEPS ≤ stepsOf s + 1
      · have hexec : decideExec o (decidePrep s).2 = forcedSynthesize := by
          unfold decideExec
          rw [if_pos]
          exact hk
        have hlabel : (runNode o .Decide s).2 = .str "synthesize" := by
          show (decidePost (decidePrep s).1 (decidePrep s).2
                  (decideExec o (decidePrep s).2)).2 = _
          rw [hexec]
          rfl
        have hsucc : succ .Decide ((runNode o .Decide s).2) = some .Synthesize := by
          rw [hlabel]
          rfl
        have hstep : traceFrom o (f + 1) .Decide s =
            .Decide :: traceFrom o f .Synthesize ((runNode o .Decide s).1) := by
          simp only [traceFrom]
          rw [hsucc]
        rw [hstep, List.count_cons, traceFrom_synthesize]
        simpa using hb
      · cases hsucc : succ .Decide ((runNode o .Decide s).2) with
        | none =>
          have hstep : traceFrom o (f + 1) .Decide s = [.Decide] := by
            simp only [traceFrom]
            rw [hsucc]
          rw [hstep]
          simpa using hb
        | some st2 =>
          have hstep : traceFrom o (f + 1) .Decide s =
              .Decide :: traceFrom o f st2 ((runNode o .Decide s).1) := by
            simp only [traceFrom]
            rw [hsucc]
          rw [hstep, List.count_cons]
          have h2 := ih st2 ((runNode o .Decide s).1)
          have hs : stepsOf ((runNode o .Decide s).1) = stepsOf s + 1 := rfl
          rw [hs] at h2
          simp only [MAX_STEPS] at h2 hk ⊢
          simp only [List.count_cons] at *
          simp
          omega

/-- C1: from the initial shared store, Decide runs at most MAX_STEPS
(8) times however long the run and whatever the model answers; any
Decide invocation whose prepared `steps` is at least 8 returns the
forced synthesize decision without consulting the model, and that
decision routes the run to the terminal Synthesize stage. -/
theorem decide_step_budget :
    (∀ (o : Oracle) (fuel : Nat) (uq : String),
        decideCount o fuel (initShared uq) ≤ MAX_STEPS) ∧
    (∀ (o : Oracle) (pr : DecidePrep), MAX_STEPS ≤ pr.steps →
        decideExec o pr = forcedSynthesize) ∧
    (∀ (o o2 : Oracle) (pr : DecidePrep), MAX_STEPS ≤ pr.steps →
        decideExec o pr = decideExec o2 pr) ∧
    jget forcedSynthesize "action" = some (.str "synthesize") ∧
    succ .Decide (.str "synthesize") = some .Synthesize ∧
    succ .Synthesize (.str "default") = none := by
  have hforced : ∀ (o : Oracle) (pr : DecidePrep), MAX_STEPS ≤ pr.steps →
      decideExec o pr = forcedSynthesize := by
    intro o pr h
    unfold decideExec
    rw [if_pos h]
  refine ⟨?_, hforced, ?_, rfl, rfl, rfl⟩
  · intro o fuel uq
    have h := traceFrom_decide_le o fuel flowStart (initShared uq)
    have h0 : stepsOf (initShared uq) = 0 := rfl
    rw [h0] at h
    simpa [decideCount] using h
  · intro o o2 pr h
    rw [hforced o pr h, hforced o2 pr h]

/-- Witness for C1: the always-"plan" oracle exercises the budget, and
a prepared input with steps = 9 exceeds it. -/
theorem decide_step_budget_witness :
    decideCount constOracle 40 (initShared "q") ≤ MAX_STEPS ∧
    MAX_STEPS ≤ demoPrep.steps ∧
    decideExec constOracle demoPrep = forcedSynthesize :=
  ⟨decide_step_budget.1 constOracle 40 "q", by decide,
   decide_step_budget.2.1 constOracle demoPrep (by decide)⟩

/-! Round-trip lemmas: the printed form of a well-formed JSON value
parses back to the value. They culminate in `loads_print` and the
brace-recovery extraction lemma, which settle the `completeStructured`
round-trip claim. -/

/-- Digit characters are digits. -/
theorem digitChar_isDigit (d : Nat) (h : d < 10) : (digitChar d).isDigit = true := by
  interval_cases d <;> decide

/-- Numeric value of a digit character. -/
theorem digitChar_toNat (d : Nat) (h : d < 10) : (digitChar d).toNat = 48 + d := by
  interval_cases d <;> decide

/-- Digit characters are not structural JSON characters. -/
theorem digitChar_props (d : Nat) (h : d < 10) :
    (isJsonWs (digitChar d) = false ∧ digitChar d ≠ ']' ∧ digitChar d ≠ '\x7d' ∧
      digitChar d ≠ '-') ∧
    (digitChar d ≠ 'n' ∧ digitChar d ≠ 't' ∧ digitChar d ≠ 'f') ∧
    (digitChar d ≠ '"' ∧ digitChar d ≠ '[' ∧ digitChar d ≠ '\x7b') := by
  interval_cases d <;> exact (by decide)

/-- Printed naturals start with a digit character. -/
theorem printNat_head (n : Nat) : ∃ d t, d < 10 ∧ printNat n = digitChar d :: t := by
  induction n using Nat.strong_induction_on with
  | _ n ih =>
    unfold printNat
    split
    · next h => exact ⟨n, [], h, rfl⟩
    · next h =>
      obtain ⟨d, t, hd, ht⟩ := ih (n / 10) (Nat.div_lt_self (by omega) (by omega))
      exact ⟨d, t ++ [digitChar (n % 10)], hd, by rw [ht]; rfl⟩

/-- Parsing the printed digits of `n` continues into the remainder with
`n` accumulated. -/
theorem parseDigitsAux_print (n : Nat) : ∀ (acc : Nat) (rest : List Char),
    parseDigitsAux (printNat n ++ rest) acc
      = parseDigitsAux rest (acc * 10 ^ (printNat n).length + n) := by
  induction n using Nat.strong_induction_on with
  | _ n ih =>
    intro acc rest
    unfold printNat
    split
    · next h =>
      simp only [List.cons_append, List.nil_append, parseDigitsAux,
        digitChar_isDigit n h, if_true, List.length_cons, List.length_nil]
      congr 1
      rw [digitChar_toNat n h]
      simp [pow_succ]
    · next h =>
      rw [List.append_assoc, ih (n / 10) (Nat.div_lt_self (by omega) (by omega))]
      simp only [List.cons_append, List.nil_append, parseDigitsAux,
        digitChar_isDigit (n % 10) (Nat.mod_lt _ (by omega)), if_true,
        List.length_append, List.length_cons, List.length_nil]
      congr 1
      rw [digitChar_toNat (n % 10) (Nat.mod_lt _ (by omega))]
      have h10 := Nat.div_add_mod n 10
      simp only [pow_succ, pow_zero, Nat.add_zero, Nat.zero_add, ← Nat.mul_assoc]
      generalize acc * 10 ^ (printNat (n / 10)).length = B
      omega

/-- Digit parsing stops at a non-digit continuation. -/
theorem parseDigitsAux_stop (rest : List Char) (acc : Nat)
    (h : headNotDigit rest = true) : parseDigitsAux rest acc = (acc, rest) := by
  cases rest with
  | nil => rfl
  | cons c t =>
    simp only [headNotDigit, Bool.not_eq_true'] at h
    simp [parseDigitsAux, h]

/-- Printed integers parse back when the continuation does not start
with a digit. -/
theorem parseNum_print (n : Int) (rest : List Char) (h : headNotDigit rest = true) :
    parseNum (printInt n ++ rest) = some (n, rest) := by
  unfold printInt
  split
  · next hneg =>
    obtain ⟨d, t, hd, ht⟩ := printNat_head n.natAbs
    rw [ht]
    simp only [List.cons_append, parseNum, if_pos rfl]
    rw [digitChar_isDigit d hd]
    simp only [if_true]
    rw [← List.cons_append, ← ht, parseDigitsAux_print, parseDigitsAux_stop rest _ h]
    simp only [Nat.zero_mul, Nat.zero_add]
    have : (n.natAbs : Int) = -n := by omega
    rw [this]
    simp
  · next hpos =>
    obtain ⟨d, t, hd, ht⟩ := printNat_head n.toNat
    rw [ht]
    simp only [List.cons_append, parseNum]
    rw [if_neg (digitChar_props d hd).1.2.2.2]
    rw [digitChar_isDigit d hd]
    simp only [if_true]
    rw [← List.cons_append, ← ht, parseDigitsAux_print, parseDigitsAux_stop rest _ h]
    simp only [Nat.zero_mul, Nat.zero_add]
    have : (n.toNat : Int) = n := by omega
    rw [this]

/-- A closing quote ends the string body. -/
theorem parseStrBody_quote (X : List Char) : parseStrBody ('"' :: X) = some ([], X) := by
  rw [parseStrBody.eq_def]
  simp

/-- An escaped quote or backslash is decoded to the bare character. -/
theorem parseStrBody_esc (c : Char) (X : List Char) (h : c = '"' ∨ c = '\\') :
    parseStrBody ('\\' :: c :: X) = (parseStrBody X).map (fun p => (c :: p.1, p.2)) := by
  rcases h with rfl | rfl <;> (conv_lhs => rw [parseStrBody.eq_def]) <;> simp

/-- A plain character is consumed as itself. -/
theorem parseStrBody_plain (c : Char) (X : List Char) (h : plainChar c = true) :
    parseStrBody (c :: X) = (parseStrBody X).map (fun p => (c :: p.1, p.2)) := by
  have h1 : ¬c = '"' := by
    intro he
    subst he
    simp [plainChar] at h
  have h2 : ¬c = '\\' := by
    intro he
    subst he
    simp [plainChar] at h
  conv_lhs => rw [parseStrBody.eq_def]
  simp only [if_neg h1, if_neg h2, if_pos h]
/-- Printed string bodies parse back to the original characters. -/
theorem parseStrBody_print : ∀ (s rest : List Char),
    s.all (fun c => 32 ≤ c.toNat) = true →
    parseStrBody (escStr s ++ '"' :: rest) = some (s, rest) := by
  intro s
  induction s with
  | nil =>
    intro rest h
    have he : escStr [] ++ '"' :: rest = '"' :: rest := by simp [escStr]
    rw [he, parseStrBody_quote]
  | cons c t ih =>
    intro rest h
    simp only [List.all_cons, Bool.and_eq_true, decide_eq_true_eq] at h
    obtain ⟨hc, ht⟩ := h
    by_cases h1 : c = '"'
    · subst h1
      have he : escStr ('"' :: t) ++ '"' :: rest = '\\' :: '"' :: (escStr t ++ '"' :: rest) := by
        simp [escStr, escChar]
      rw [he, parseStrBody_esc _ _ (Or.inl rfl), ih rest ht]
      rfl
    · by_cases h2 : c = '\\'
      · subst h2
        have he : escStr ('\\' :: t) ++ '"' :: rest = '\\' :: '\\' :: (escStr t ++ '"' :: rest) := by
          simp [escStr, escChar]
        rw [he, parseStrBody_esc _ _ (Or.inr rfl), ih rest ht]
        rfl
      · have he : escStr (c :: t) ++ '"' :: rest = c :: (escStr t ++ '"' :: rest) := by
          simp [escStr, escChar, h1, h2]
        have hp : plainChar c = true := by
          simp [plainChar, decide_eq_true_eq, hc, h1, h2]
        rw [he, parseStrBody_plain c _ hp, ih rest ht]
        rfl

/-- Leading whitespace skipping does not touch a non-whitespace head. -/
theorem skipWs_cons (c : Char) (t : List Char) (h : isJsonWs c = false) :
    skipWs (c :: t) = c :: t := by
  simp [skipWs, List.dropWhile_cons, h]

/-- Rebuilding a string from its character list is the identity. -/
theorem string_mk_toList (s : String) : String.mk s.toList = s := rfl

/-- Every JSON value has positive fuel measure. -/
theorem jsize_pos (v : Json) : 1 ≤ jsize v := by
  cases v <;> simp [jsize]

/-- Nonempty element lists have positive fuel measure. -/
theorem lsize_pos (l : List Json) (h : l ≠ []) : 1 ≤ lsize l := by
  cases l with
  | nil => exact absurd rfl h
  | cons v tl =>
    simp only [lsize]
    omega

/-- Nonempty member lists have positive fuel measure. -/
theorem msize_pos (m : List (String × Json)) (h : m ≠ []) : 1 ≤ msize m := by
  cases m with
  | nil => exact absurd rfl h
  | cons kv tl =>
    obtain ⟨k, v⟩ := kv
    simp only [msize]
    omega

/-- Printed integers begin with a character that is neither whitespace
nor any structural or keyword-opening character. -/
theorem printInt_head (n : Int) :
    ∃ c t, printInt n = c :: t ∧ isJsonWs c = false ∧ (c ≠ ']' ∧ c ≠ '\x7d') ∧
      (c ≠ 'n' ∧ c ≠ 't' ∧ c ≠ 'f') ∧ (c ≠ '"' ∧ c ≠ '[' ∧ c ≠ '\x7b') := by
  unfold printInt
  split
  · exact ⟨'-', _, rfl, by decide, ⟨by decide, by decide⟩,
      ⟨by decide, by decide, by decide⟩, ⟨by decide, by decide, by decide⟩⟩
  · obtain ⟨d, t, hd, ht⟩ := printNat_head n.toNat
    obtain ⟨⟨p1, p2, p3, _⟩, hk, hs⟩ := digitChar_props d hd
    exact ⟨digitChar d, t, ht, p1, ⟨p2, p3⟩, hk, hs⟩

/-- Printed JSON values begin with a non-whitespace character distinct
from the two closing delimiters. -/
theorem printJson_head (v : Json) :
    ∃ c t, printJson v = c :: t ∧ isJsonWs c = false ∧ c ≠ ']' ∧ c ≠ '\x7d' := by
  cases v with
  | null => exact ⟨'n', ['u', 'l', 'l'], rfl, by decide, by decide, by decide⟩
  | bool b =>
    cases b
    · exact ⟨'f', ['a', 'l', 's', 'e'], rfl, by decide, by decide, by decide⟩
    · exact ⟨'t', ['r', 'u', 'e'], rfl, by decide, by decide, by decide⟩
  | num n =>
    obtain ⟨c, t, h, p1, ⟨p2, p3⟩, _⟩ := printInt_head n
    exact ⟨c, t, by simp [printJson, h], p1, p2, p3⟩
  | str s =>
    exact ⟨'"', escStr s.toList ++ ['"'], by simp [printJson], by decide, by decide, by decide⟩
  | arr l =>
    exact ⟨'[', printList l ++ [']'], by simp [printJson], by decide, by decide, by decide⟩
  | obj m =>
    exact ⟨'\x7b', printMembers m ++ ['\x7d'], by simp [printJson], by decide, by decide,
      by decide⟩

/-- Printed nonempty member lists begin with the opening quote of the
first key. -/
theorem printMembers_head (m : List (String × Json)) (h : m ≠ []) :
    ∃ t, printMembers m = '"' :: t := by
  match m with
  | [(k, v)] => exact ⟨escStr k.toList ++ '"' :: ':' :: printJson v, by simp [printMembers]⟩
  | (k, v) :: (k2, v2) :: tl =>
    exact ⟨escStr k.toList ++ '"' :: ':' :: (printJson v ++ ',' :: printMembers ((k2, v2) :: tl)),
      by simp [printMembers]⟩

mutual
/-- Fuel measures are bounded by printed length. -/
theorem jsize_le_print (v : Json) : jsize v ≤ (printJson v).length := by
  cases v with
  | null => decide
  | bool b => cases b <;> decide
  | num n =>
    obtain ⟨c, t, h, _⟩ := printInt_head n
    simp [jsize, printJson, h]
  | str s => simp [jsize, printJson]
  | arr l =>
    have h := lsize_le_print l
    simp only [jsize, printJson, List.length_cons, List.length_append,
      List.length_cons, List.length_nil]
    omega
  | obj m =>
    have h := msize_le_print m
    simp only [jsize, printJson, List.length_cons, List.length_append,
      List.length_cons, List.length_nil]
    omega

/-- Element-list fuel measure bound. -/
theorem lsize_le_print (l : List Json) : lsize l ≤ (printList l).length + 1 := by
  match l with
  | [] => simp [lsize]
  | [v] =>
    have h := jsize_le_print v
    simp only [lsize, printList, List.length_nil]
    omega
  | v :: v2 :: tl =>
    have h1 := jsize_le_print v
    have h2 := lsize_le_print (v2 :: tl)
    simp only [lsize] at h2
    simp only [lsize, printList, List.length_append, List.length_cons]
    omega

/-- Member-list fuel measure bound. -/
theorem msize_le_print (m : List (String × Json)) :
    msize m ≤ (printMembers m).length + 1 := by
  match m with
  | [] => simp [msize]
  | [(k, v)] =>
    have h := jsize_le_print v
    simp only [msize, printMembers, List.length_cons, List.length_append]
    omega
  | (k, v) :: (k2, v2) :: tl =>
    have h1 := jsize_le_print v
    have h2 := msize_le_print ((k2, v2) :: tl)
    simp only [msize] at h2
    simp only [msize, printMembers, List.length_cons, List.length_append]
    omega
end

/-- One-step unfolding of the element parser at positive fuel. -/
theorem parseElems_step (f : Nat) (cs : List Char) :
    parseElems (f + 1) cs =
      (match parseVal f cs with
       | none => none
       | some (v, r) =>
         match skipWs r with
         | ',' :: r2 => (parseElems f r2).map (fun p => (v :: p.1, p.2))
         | ']' :: r2 => some ([v], r2)
         | _ => none) := rfl

/-- One-step unfolding of the member parser at positive fuel. -/
theorem parseMems_step (f : Nat) (X : List Char) :
    parseMems (f + 1) ('"' :: X) =
      (match parseStrBody X with
       | none => none
       | some (k, r) =>
         match skipWs r with
         | ':' :: r2 =>
           (match parseVal f r2 with
            | none => none
            | some (v, r3) =>
              match skipWs r3 with
              | ',' :: r4 => (parseMems f r4).map (fun p => ((String.mk k, v) :: p.1, p.2))
              | '\x7d' :: r4 => some ([(String.mk k, v)], r4)
              | _ => none)
         | _ => none) := rfl

/-- Keyword step: parsing "null". -/
theorem parseVal_null (f : Nat) (r : List Char) :
    parseVal (f + 1) (kw "null" ++ r) = some (.null, r) := rfl

/-- Keyword step: parsing "true". -/
theorem parseVal_true (f : Nat) (r : List Char) :
    parseVal (f + 1) (kw "true" ++ r) = some (.bool true, r) := rfl

/-- Keyword step: parsing "false". -/
theorem parseVal_false (f : Nat) (r : List Char) :
    parseVal (f + 1) (kw "false" ++ r) = some (.bool false, r) := rfl

/-- String step: an opening quote hands over to the string-body
parser. -/
theorem parseVal_quote (f : Nat) (X : List Char) :
    parseVal (f + 1) ('"' :: X) =
      (parseStrBody X).map (fun p => (.str (String.mk p.1), p.2)) := rfl

/-- Empty-array step. -/
theorem parseVal_arr_nil (f : Nat) (r : List Char) :
    parseVal (f + 1) ('[' :: ']' :: r) = some (.arr [], r) := rfl

/-- Empty-object step. -/
theorem parseVal_obj_nil (f : Nat) (r : List Char) :
    parseVal (f + 1) ('\x7b' :: '\x7d' :: r) = some (.obj [], r) := rfl

/-- Nonempty-array step: a bracket followed by a non-whitespace,
non-bracket character hands over to the element parser. -/
theorem parseVal_arr_run (f : Nat) (c0 : Char) (t : List Char)
    (hw : isJsonWs c0 = false) (hne : c0 ≠ ']') :
    parseVal (f + 1) ('[' :: c0 :: t) =
      (parseElems f (c0 :: t)).map (fun p => (.arr p.1, p.2)) := by
  simp only [parseVal]
  rw [skipWs_cons _ _ (by decide)]
  simp only [if_neg (by decide : ¬('[' : Char) = 'n'),
    if_neg (by decide : ¬('[' : Char) = 't'), if_neg (by decide : ¬('[' : Char) = 'f'),
    if_neg (by decide : ¬('[' : Char) = '"'), if_pos rfl]
  rw [skipWs_cons _ _ hw]
  simp only [if_neg hne]
  simp

/-- Nonempty-object step. -/
theorem parseVal_obj_run (f : Nat) (c0 : Char) (t : List Char)
    (hw : isJsonWs c0 = false) (hne : c0 ≠ '\x7d') :
    parseVal (f + 1) ('\x7b' :: c0 :: t) =
      (parseMems f (c0 :: t)).map (fun p => (.obj p.1, p.2)) := by
  simp only [parseVal]
  rw [skipWs_cons _ _ (by decide)]
  simp only [if_neg (by decide : ¬('\x7b' : Char) = 'n'),
    if_neg (by decide : ¬('\x7b' : Char) = 't'),
    if_neg (by decide : ¬('\x7b' : Char) = 'f'),
    if_neg (by decide : ¬('\x7b' : Char) = '"'),
    if_neg (by decide : ¬('\x7b' : Char) = '['), if_pos rfl]
  rw [skipWs_cons _ _ hw]
  simp only [if_neg hne]
  simp

/-- Element run ending at the closing bracket. -/
theorem parseElems_run1 (f : Nat) (cs rest : List Char) (v : Json)
    (h1 : parseVal f cs = some (v, ']' :: rest)) :
    parseElems (f + 1) cs = some ([v], rest) := by
  rw [parseElems_step, h1]
  simp only [skipWs_cons _ _ (by decide : isJsonWs ']' = false)]

/-- Element run continuing after a comma. -/
theorem parseElems_run2 (f : Nat) (cs r2 : List Char) (v : Json)
    (h1 : parseVal f cs = some (v, ',' :: r2)) :
    parseElems (f + 1) cs = (parseElems f r2).map (fun p => (v :: p.1, p.2)) := by
  rw [parseElems_step, h1]
  simp only [skipWs_cons _ _ (by decide : isJsonWs ',' = false)]

/-- Member run ending at the closing brace. -/
theorem parseMems_run1 (f : Nat) (X r2 rest : List Char) (k : List Char) (v : Json)
    (h1 : parseStrBody X = some (k, ':' :: r2))
    (h2 : parseVal f r2 = some (v, '\x7d' :: rest)) :
    parseMems (f + 1) ('"' :: X) = some ([(String.mk k, v)], rest) := by
  rw [parseMems_step, h1]
  simp only [skipWs_cons _ _ (by decide : isJsonWs ':' = false)]
  rw [h2]
  simp only [skipWs_cons _ _ (by decide : isJsonWs '\x7d' = false)]

/-- Member run continuing after a comma. -/
theorem parseMems_run2 (f : Nat) (X r2 r4 : List Char) (k : List Char) (v : Json)
    (h1 : parseStrBody X = some (k, ':' :: r2))
    (h2 : parseVal f r2 = some (v, ',' :: r4)) :
    parseMems (f + 1) ('"' :: X) =
      (parseMems f r4).map (fun p => ((String.mk k, v) :: p.1, p.2)) := by
  rw [parseMems_step, h1]
  simp only [skipWs_cons _ _ (by decide : isJsonWs ':' = false)]
  rw [h2]
  simp only [skipWs_cons _ _ (by decide : isJsonWs ',' = false)]

mutual
/-- Well-formed printed JSON values parse back to themselves, leaving a
non-digit-initial continuation untouched. -/
theorem parseVal_print (v : Json) (fuel : Nat) (rest : List Char)
    (hwf : wfJson v = true) (hfuel : jsize v ≤ fuel) (hrest : headNotDigit rest = true) :
    parseVal fuel (printJson v ++ rest) = some (v, rest) := by
  obtain ⟨f, rfl⟩ : ∃ f, fuel = f + 1 := by
    have h1 := jsize_pos v
    cases fuel with
    | zero => omega
    | succ f2 => exact ⟨f2, rfl⟩
  cases v with
  | null => exact parseVal_null f rest
  | bool b =>
    cases b with
    | true => exact parseVal_true f rest
    | false => exact parseVal_false f rest
  | num n =>
    obtain ⟨c, t, hp, q1, ⟨q2, q3⟩, ⟨q4, q5, q6⟩, ⟨q7, q8, q9⟩⟩ := printInt_head n
    have hpj : printJson (Json.num n) = printInt n := by simp [printJson]
    rw [hpj, hp, List.cons_append]
    simp only [parseVal]
    rw [skipWs_cons _ _ q1]
    simp only [if_neg q4, if_neg q5, if_neg q6, if_neg q7, if_neg q8, if_neg q9]
    rw [← List.cons_append, ← hp, parseNum_print n rest hrest]
    rfl
  | str s =>
    have hs : s.toList.all (fun c => 32 ≤ c.toNat) = true := by
      simpa [wfJson] using hwf
    rw [show printJson (Json.str s) ++ rest = '"' :: (escStr s.toList ++ '"' :: rest) from by
      simp [printJson]]
    rw [parseVal_quote, parseStrBody_print s.toList rest hs]
    simp [string_mk_toList]
  | arr l =>
    cases l with
    | nil =>
      rw [show printJson (Json.arr []) ++ rest = '[' :: ']' :: rest from by
        simp [printJson, printList]]
      exact parseVal_arr_nil f rest
    | cons v tl =>
      obtain ⟨c0, t0, hph, w1, w2, w3⟩ := printJson_head v
      have hwl : wfList (v :: tl) = true := by simpa [wfJson] using hwf
      have hfl : lsize (v :: tl) ≤ f := by
        simp only [jsize] at hfuel
        omega
      obtain ⟨t1, ht1⟩ : ∃ t1, printList (v :: tl) = c0 :: t1 := by
        cases tl with
        | nil => exact ⟨t0, by simp [printList, hph]⟩
        | cons v2 tl2 => exact ⟨t0 ++ ',' :: printList (v2 :: tl2), by simp [printList, hph]⟩
      have hshape : printJson (Json.arr (v :: tl)) ++ rest
          = '[' :: (c0 :: (t1 ++ ']' :: rest)) := by
        simp [printJson, ht1]
      rw [hshape, parseVal_arr_run f c0 _ w1 w2]
      rw [show (c0 :: (t1 ++ ']' :: rest)) = printList (v :: tl) ++ ']' :: rest from by
        rw [ht1]; rfl]
      rw [parseElems_print (v :: tl) f rest (by simp) hwl hfl]
      rfl
  | obj m =>
    cases m with
    | nil =>
      rw [show printJson (Json.obj []) ++ rest = '\x7b' :: '\x7d' :: rest from by
        simp [printJson, printMembers]]
      exact parseVal_obj_nil f rest
    | cons kv tl =>
      have hwm : wfMembers (kv :: tl) = true := by simpa [wfJson] using hwf
      have hfm : msize (kv :: tl) ≤ f := by
        simp only [jsize] at hfuel
        omega
      obtain ⟨t1, ht1⟩ := printMembers_head (kv :: tl) (by simp)
      have hshape : printJson (Json.obj (kv :: tl)) ++ rest
          = '\x7b' :: ('"' :: (t1 ++ '\x7d' :: rest)) := by
        simp [printJson, ht1]
      rw [hshape, parseVal_obj_run f '"' _ (by decide) (by decide)]
      rw [show ('"' :: (t1 ++ '\x7d' :: rest)) = printMembers (kv :: tl) ++ '\x7d' :: rest from by
        rw [ht1]; rfl]
      rw [parseMems_print (kv :: tl) f rest (by simp) hwm hfm]
      rfl

/-- Well-formed printed element lists followed by the closing bracket
parse back to themselves. -/
theorem parseElems_print (l : List Json) (fuel : Nat) (rest : List Char)
    (hne : l ≠ []) (hwf : wfList l = true) (hfuel : lsize l ≤ fuel) :
    parseElems fuel (printList l ++ ']' :: rest) = some (l, rest) := by
  match l with
  | [] => exact absurd rfl hne
  | [v] =>
    obtain ⟨f, rfl⟩ : ∃ f, fuel = f + 1 := by
      have h1 := lsize_pos [v] (by simp)
      cases fuel with
      | zero => omega
      | succ f2 => exact ⟨f2, rfl⟩
    have hwv : wfJson v = true := by simpa [wfList] using hwf
    have hfv : jsize v ≤ f := by
      simp only [lsize] at hfuel
      omega
    rw [show printList [v] ++ ']' :: rest = printJson v ++ ']' :: rest from by
      simp [printList]]
    exact parseElems_run1 f _ rest v (parseVal_print v f (']' :: rest) hwv hfv rfl)
  | v :: v2 :: tl =>
    obtain ⟨f, rfl⟩ : ∃ f, fuel = f + 1 := by
      have h1 := lsize_pos (v :: v2 :: tl) (by simp)
      cases fuel with
      | zero => omega
      | succ f2 => exact ⟨f2, rfl⟩
    have hw : wfJson v = true ∧ wfList (v2 :: tl) = true := by
      simpa [wfList, Bool.and_eq_true] using hwf
    have hfv : jsize v ≤ f := by
      simp only [lsize] at hfuel
      omega
    have hf2 : lsize (v2 :: tl) ≤ f := by
      simp only [lsize] at hfuel ⊢
      omega
    rw [show printList (v :: v2 :: tl) ++ ']' :: rest
        = printJson v ++ ',' :: (printList (v2 :: tl) ++ ']' :: rest) from by
      simp [printList]]
    rw [parseElems_run2 f _ _ v
      (parseVal_print v f (',' :: (printList (v2 :: tl) ++ ']' :: rest)) hw.1 hfv rfl)]
    rw [parseElems_print (v2 :: tl) f rest (by simp) hw.2 hf2]
    rfl

/-- Well-formed printed member lists followed by the closing brace
parse back to themselves. -/
theorem parseMems_print (m : List (String × Json)) (fuel : Nat) (rest : List Char)
    (hne : m ≠ []) (hwf : wfMembers m = true) (hfuel : msize m ≤ fuel) :
    parseMems fuel (printMembers m ++ '\x7d' :: rest) = some (m, rest) := by
  match m with
  | [] => exact absurd rfl hne
  | [(k, v)] =>
    obtain ⟨f, rfl⟩ : ∃ f, fuel = f + 1 := by
      have h1 := msize_pos [(k, v)] (by simp)
      cases fuel with
      | zero => omega
      | succ f2 => exact ⟨f2, rfl⟩
    have hw : (k.toList.all (fun c => 32 ≤ c.toNat)) = true ∧ wfJson v = true := by
      have h2 := hwf
      simp only [wfMembers, Bool.and_eq_true] at h2
      exact ⟨h2.1.1, h2.1.2⟩
    have hfv : jsize v ≤ f := by
      simp only [msize] at hfuel
      omega
    rw [show printMembers [(k, v)] ++ '\x7d' :: rest
        = '"' :: (escStr k.toList ++ '"' :: (':' :: (printJson v ++ '\x7d' :: rest))) from by
      simp [printMembers]]
    rw [parseMems_run1 f _ _ rest k.toList v
      (parseStrBody_print k.toList _ hw.1)
      (parseVal_print v f ('\x7d' :: rest) hw.2 hfv rfl)]
    rw [string_mk_toList]
  | (k, v) :: (k2, v2) :: tl =>
    obtain ⟨f, rfl⟩ : ∃ f, fuel = f + 1 := by
      have h1 := msize_pos ((k, v) :: (k2, v2) :: tl) (by simp)
      cases fuel with
      | zero => omega
      | succ f2 => exact ⟨f2, rfl⟩
    have hw : (k.toList.all (fun c => 32 ≤ c.toNat)) = true ∧ wfJson v = true ∧
        wfMembers ((k2, v2) :: tl) = true := by
      have h2 := hwf
      simp only [wfMembers, Bool.and_eq_true] at h2
      refine ⟨h2.1.1, h2.1.2, ?_⟩
      simp only [wfMembers, Bool.and_eq_true]
      exact h2.2
    have hfv : jsize v ≤ f := by
      simp only [msize] at hfuel
      omega
    have hf2 : msize ((k2, v2) :: tl) ≤ f := by
      simp only [msize] at hfuel ⊢
      omega
    rw [show printMembers ((k, v) :: (k2, v2) :: tl) ++ '\x7d' :: rest
        = '"' :: (escStr k.toList ++ '"' ::
            (':' :: (printJson v ++ ',' :: (printMembers ((k2, v2) :: tl) ++ '\x7d' :: rest)))) from by
      simp [printMembers]]
    rw [parseMems_run2 f _ _ _ k.toList v
      (parseStrBody_print k.toList _ hw.1)
      (parseVal_print v f (',' :: (printMembers ((k2, v2) :: tl) ++ '\x7d' :: rest))
        hw.2.1 hfv rfl)]
    rw [parseMems_print ((k2, v2) :: tl) f rest (by simp) hw.2.2 hf2]
    rw [string_mk_toList]
    rfl
end

/-- Well-formed printed JSON values `json.loads` back to themselves. -/
theorem loads_print (v : Json) (hwf : wfJson v = true) : loads (printJson v) = some v := by
  unfold loads
  have h := parseVal_print v ((printJson v).length + 1) [] hwf
    (le_trans (jsize_le_print v) (Nat.le_succ _)) rfl
  rw [List.append_nil] at h
  rw [h]
  rfl

/-- A character absent from a list has no first index. -/
theorem firstIdx_not_mem (c : Char) (l : List Char) (h : c ∉ l) :
    firstIdx c l = none := by
  induction l with
  | nil => rfl
  | cons x t ih =>
    have hx : ¬x = c := fun he => h (he ▸ List.mem_cons_self x t)
    have ht : c ∉ t := fun hm => h (List.mem_cons_of_mem x hm)
    simp [firstIdx, hx, ih ht]

/-- First index past a prefix not containing the character. -/
theorem firstIdx_append (c : Char) (l1 l2 : List Char) (h : c ∉ l1) :
    firstIdx c (l1 ++ l2) = (firstIdx c l2).map (· + l1.length) := by
  induction l1 with
  | nil =>
    simp only [List.nil_append, List.length_nil]
    cases firstIdx c l2 <;> simp
  | cons x t ih =>
    have hx : ¬x = c := fun he => h (he ▸ List.mem_cons_self x t)
    have ht : c ∉ t := fun hm => h (List.mem_cons_of_mem x hm)
    simp only [List.cons_append, firstIdx, hx, if_false, List.length_cons]
    rw [show t.append l2 = t ++ l2 from rfl, ih ht]
    cases hc2 : firstIdx c l2 with
    | none => simp
    | some a =>
      simp only [Option.map_some']
      congr 1

/-- First index at a head occurrence. -/
theorem firstIdx_cons_self (c : Char) (t : List Char) :
    firstIdx c (c :: t) = some 0 := by
  simp [firstIdx]

/-- Brace recovery positions and slice on prose-wrapped output: with no
opening brace in the leading prose and no closing brace in the trailing
prose, `content[first : last + 1]` is exactly the embedded serialized
object. -/
theorem recover_slice (pre p post : List Char)
    (hpre : '\x7b' ∉ pre) (hpost : '\x7d' ∉ post)
    (hhead : ∃ t, p = '\x7b' :: t) (hlast : ∃ t, p.reverse = '\x7d' :: t) :
    firstIdx '\x7b' (pre ++ p ++ post) = some pre.length ∧
    lastIdx '\x7d' (pre ++ p ++ post) = some (pre.length + p.length - 1) ∧
    ((pre ++ p ++ post).drop pre.length).take
        (pre.length + p.length - 1 + 1 - pre.length) = p := by
  obtain ⟨t, hp⟩ := hhead
  obtain ⟨t2, hq⟩ := hlast
  have hplen : 1 ≤ p.length := by
    rw [hp]
    simp
  have h1 : firstIdx '\x7b' (pre ++ p ++ post) = some pre.length := by
    rw [List.append_assoc, firstIdx_append _ _ _ hpre, hp, List.cons_append,
      firstIdx_cons_self]
    simp
  have h2 : lastIdx '\x7d' (pre ++ p ++ post) = some (pre.length + p.length - 1) := by
    unfold lastIdx
    have hrev : (pre ++ p ++ post).reverse = post.reverse ++ (p.reverse ++ pre.reverse) := by
      simp [List.reverse_append]
    have hnp : '\x7d' ∉ post.reverse := by
      simpa [List.mem_reverse] using hpost
    rw [hrev, firstIdx_append _ _ _ hnp, hq, List.cons_append, firstIdx_cons_self]
    simp only [Option.map_some', List.length_reverse, List.length_append]
    congr 1
    omega
  refine ⟨h1, h2, ?_⟩
  have hd : (pre ++ p ++ post).drop pre.length = p ++ post := by
    rw [List.append_assoc]
    exact List.drop_left pre (p ++ post)
  have hn : pre.length + p.length - 1 + 1 - pre.length = p.length := by omega
  rw [hd, hn]
  exact List.take_left p post

/-- Recovery path of `call_llm_json`: direct parse fails, both braces
are found, and the recovered slice parses. -/
theorem call_llm_json_recover (content : List Char) (i j : Nat) (v : Json)
    (h0 : loads content = none)
    (h1 : firstIdx '\x7b' content = some i)
    (h2 : lastIdx '\x7d' content = some j)
    (h3 : loads ((content.drop i).take (j + 1 - i)) = some v) :
    call_llm_json content = .ok v := by
  unfold call_llm_json
  simp only [h0, h1, h2, h3]

/-- C3 amended: a schema-conforming (well-formed) JSON object
serialized and wrapped in leading prose without `\x7b` and trailing
prose without `\x7d` is recovered and parsed unchanged, provided the
wrapped text does not itself parse as a complete JSON document (with no
wrapping, the direct parse already returns it unchanged). -/
theorem completeStructured_roundtrip :
    (∀ m : List (String × Json), wfJson (.obj m) = true →
        call_llm_json (printJson (.obj m)) = .ok (.obj m)) ∧
    (∀ (m : List (String × Json)) (pre post : List Char),
        wfJson (.obj m) = true → '\x7b' ∉ pre → '\x7d' ∉ post →
        loads (pre ++ printJson (.obj m) ++ post) = none →
        call_llm_json (pre ++ printJson (.obj m) ++ post) = .ok (.obj m)) := by
  constructor
  · intro m hwf
    unfold call_llm_json
    rw [loads_print _ hwf]
  · intro m pre post hwf hpre hpost hfail
    obtain ⟨h1, h2, h3⟩ := recover_slice pre (printJson (.obj m)) post hpre hpost
      ⟨printMembers m ++ ['\x7d'], by simp [printJson]⟩
      ⟨(printMembers m).reverse ++ ['\x7b'], by simp [printJson]⟩
    exact call_llm_json_recover _ _ _ _ hfail h1 h2 (by rw [h3, loads_print _ hwf])

/-- C3 counterexample: the claim fails for arbitrary prose — leading
prose containing a brace (here "\x7bx ") breaks brace-recovery: the
recovered slice starts at the prose's brace and no longer parses, so
the call raises instead of returning the embedded schema-conforming
object. -/
theorem completeStructured_roundtrip_cex :
    validAgentAction actionObj = true ∧ wfJson actionObj = true ∧
    call_llm_json ("\x7bx ".toList ++ printJson actionObj ++ []) =
      .error ("\x7bx ".toList ++ printJson actionObj ++ []) := by
  refine ⟨rfl, rfl, ?_⟩
  rfl

/-- Witness for C3 at a concrete wrapped object. -/
theorem completeStructured_roundtrip_witness :
    wfJson (Json.obj [("a", Json.str "b")]) = true ∧
    call_llm_json (printJson (Json.obj [("a", Json.str "b")]))
      = .ok (Json.obj [("a", Json.str "b")]) ∧
    '\x7b' ∉ "ok: ".toList ∧ '\x7d' ∉ " end".toList ∧
    loads ("ok: ".toList ++ printJson (Json.obj [("a", Json.str "b")]) ++ " end".toList)
      = none ∧
    call_llm_json ("ok: ".toList ++ printJson (Json.obj [("a", Json.str "b")]) ++ " end".toList)
      = .ok (Json.obj [("a", Json.str "b")]) := by
  refine ⟨rfl, completeStructured_roundtrip.1 _ rfl, by decide, by decide, rfl, ?_⟩
  exact completeStructured_roundtrip.2 _ _ _ rfl (by decide) (by decide) rfl

/-- C4 amended: every response that cannot be parsed as JSON even
after brace-recovery raises the malformed-output error carrying the
raw text. The first conjunct is the full universal: direct parse
fails, and whenever both brace indices exist the recovered slice also
fails to parse — this covers a missing opening brace, a missing
closing brace (e.g. truncated output), and an unparseable recovered
slice alike. The second conjunct is the claim's particular braceless
case. Schema violations, however, are not detected locally: any
response that parses as JSON is returned unvalidated (strict schema
enforcement is delegated to the provider's response-format
parameter). -/
theorem structured_error_paths :
    (∀ content : List Char, loads content = none →
        (∀ i j : Nat, firstIdx '\x7b' content = some i →
          lastIdx '\x7d' content = some j →
          loads ((content.drop i).take (j + 1 - i)) = none) →
        call_llm_json content = .error content) ∧
    (∀ content : List Char, loads content = none → '\x7b' ∉ content →
        call_llm_json content = .error content) ∧
    (∀ (content : List Char) (v : Json), loads content = some v →
        call_llm_json content = .ok v) := by
  have hall : ∀ content : List Char, loads content = none →
      (∀ i j : Nat, firstIdx '\x7b' content = some i →
        lastIdx '\x7d' content = some j →
        loads ((content.drop i).take (j + 1 - i)) = none) →
      call_llm_json content = .error content := by
    intro content h hrec
    unfold call_llm_json
    cases h1 : firstIdx '\x7b' content with
    | none => simp only [h, h1]
    | some i =>
      cases h2 : lastIdx '\x7d' content with
      | none => simp only [h, h1, h2]
      | some j => simp only [h, h1, h2, hrec i j h1 h2]
  refine ⟨hall, ?_, ?_⟩
  · intro content h hnot
    refine hall content h (fun i j hi hj => ?_)
    rw [firstIdx_not_mem _ _ hnot] at hi
    exact Option.noConfusion hi
  · intro content v h
    unfold call_llm_json
    simp only [h]

/-- C4 counterexample: a response that parses as JSON but misses the
required `action` field of the AgentAction schema is returned as-is; no
schema-validation error is raised. -/
theorem structured_schema_unvalidated_cex :
    call_llm_json missingFieldContent = .ok (Json.obj [("reason", Json.str "x")]) ∧
    validAgentAction (Json.obj [("reason", Json.str "x")]) = false := by
  exact ⟨rfl, rfl⟩

/-- Witness for C4 at a truncated response with an opening but no
closing brace, a braceless unparseable response, and a parseable
one. -/
theorem structured_error_paths_witness :
    loads truncatedContent = none ∧ '\x7b' ∈ truncatedContent ∧
    lastIdx '\x7d' truncatedContent = none ∧
    call_llm_json truncatedContent = .error truncatedContent ∧
    loads noJsonContent = none ∧ '\x7b' ∉ noJsonContent ∧
    call_llm_json noJsonContent = .error noJsonContent ∧
    loads missingFieldContent = some (Json.obj [("reason", Json.str "x")]) ∧
    call_llm_json missingFieldContent = .ok (Json.obj [("reason", Json.str "x")]) := by
  refine ⟨rfl, by decide, rfl, ?_, rfl, by decide, ?_, rfl, ?_⟩
  · refine structured_error_paths.1 truncatedContent rfl (fun i j hi hj => ?_)
    rw [show lastIdx '\x7d' truncatedContent = none from rfl] at hj
    exact Option.noConfusion hj
  · exact structured_error_paths.2.1 noJsonContent rfl (by decide)
  · exact structured_error_paths.2.2 missingFieldContent _ rfl

end ResearchAgent
